import Mathlib

/-!
Verification of the UTBot Tradovate trading engine (`src/app.py`).

The numeric computations of the source (true range, Wilder ATR, trailing
stop, signal detection) are embedded over `ℚ`; the Python lists built by
the loops in `compute_utbot_signal` are built here by structurally
identical list constructions.  The token cache (`get_token`) and one
iteration of the signal-handling part of `trading_loop` are embedded as
explicit state-passing functions, with the outcomes of the external
HTTP calls supplied as parameters.
-/

/-- An OHLC bar as consumed by the signal code.  Only `high`, `low` and
`close` are read by `compute_utbot_signal`; timestamps and opens are
never inspected. -/
structure Bar where
  high : ℚ
  low : ℚ
  close : ℚ
deriving DecidableEq, Repr, Inhabited

/-- The true-range expression of `app.py` lines 129-133:
`max(high_i - low_i, abs(high_i - close_{i-1}), abs(low_i - close_{i-1}))`,
for the current bar `cur` and the previous bar `prev`. -/
def trOf (cur prev : Bar) : ℚ :=
  max (cur.high - cur.low) (max |cur.high - prev.close| |cur.low - prev.close|)

/-- The list comprehension of lines 129-133: one true range per index
`i` in `1 .. len(bars)-1`; element `k` of this list is the true range of
bar `k+1`. -/
def trsRaw (bars : List Bar) : List ℚ :=
  (List.range (bars.length - 1)).map fun k =>
    trOf (bars.getD (k + 1) default) (bars.getD k default)

/-- Line 134, `trs = [trs[0]] + trs`: the first computed true range is
prepended so that element `i` aligns with bar `i`.  (On an empty
`trsRaw` the Python line would raise; `compute_utbot_signal` only
reaches it when `len(bars) >= ATR_LEN + 2 >= 3`.) -/
def trs (bars : List Bar) : List ℚ :=
  match trsRaw bars with
  | [] => []
  | t :: rest => t :: t :: rest

/-- One step of a state-threading loop: each element of the list is
mapped through `f` together with the running state, and the updated
state is both emitted and threaded on.  This is the shape of the two
accumulation loops of `compute_utbot_signal` (lines 141-143 and
147-160). -/
def threadMap {α : Type} (f : ℚ → α → ℚ) : ℚ → List α → List ℚ
  | _, [] => []
  | s, x :: xs =>
    let s2 := f s x
    s2 :: threadMap f s2 xs

/-- Line 137 of `app.py`: the ATR seed `sum(trs[1:L+1]) / L`. -/
def atrSeed (L : ℕ) (bars : List Bar) : ℚ :=
  (((trs bars).drop 1).take L).sum / (L : ℚ)

/-- Line 142 of `app.py`: one Wilder smoothing update,
`atr = alpha * tr + (1 - alpha) * atr`. -/
def wilderStep (alpha atr tr : ℚ) : ℚ :=
  alpha * tr + (1 - alpha) * atr

/-- The values appended to `atr_list` by the loop on lines 141-143: the
Wilder recurrence threaded over `trs[L+1]`, ..., `trs[len(bars)-1]`,
starting from the seed. -/
def atrTail (L : ℕ) (bars : List Bar) : List ℚ :=
  threadMap (fun atr tr => wilderStep (1 / (L : ℚ)) atr tr) (atrSeed L bars)
    (((trs bars).drop (L + 1)).take (bars.length - (L + 1)))

/-- Lines 137-143 of `app.py`: `atr_list` holds `None` for indices
below the lookback `L`, the seed at index `L`, and the smoothed values
from index `L+1` on. -/
def atrList (L : ℕ) (bars : List Bar) : List (Option ℚ) :=
  List.replicate L none ++ some (atrSeed L bars) :: (atrTail L bars).map some

/-- The ATR value stored at index `i` of `atr_list`, with the `None`
placeholders (never read by the stop loop) collapsing to `0`. -/
def atrVal (L : ℕ) (bars : List Bar) (i : ℕ) : ℚ :=
  ((atrList L bars).getD i none).getD 0

/-- The four-branch body of the stop loop, lines 153-160 of `app.py`. -/
def stopStep (src srcPrev nLoss prevStop : ℚ) : ℚ :=
  if src > prevStop ∧ srcPrev > prevStop then max prevStop (src - nLoss)
  else if src < prevStop ∧ srcPrev < prevStop then min prevStop (src + nLoss)
  else if src > prevStop then src - nLoss
  else src + nLoss

/-- The body of the stop loop at index `i` (lines 148-160): reads the
closes of bars `i` and `i-1`, `n_loss = KEY_VALUE * atr_list[i]`, and
the previous stop entry. -/
def stopF (L : ℕ) (K : ℚ) (bars : List Bar) (prevStop : ℚ) (i : ℕ) : ℚ :=
  stopStep (bars.getD i default).close (bars.getD (i - 1) default).close
    (K * atrVal L bars i) prevStop

/-- Lines 146-160 of `app.py`: `stop` starts as `[0.0] * len(bars)` and
the loop overwrites indices `L+1 .. len(bars)-1` in order, each entry
computed by `stopF` from the previous entry (which is `0.0` for the
first written index). -/
def stopList (L : ℕ) (K : ℚ) (bars : List Bar) : List ℚ :=
  List.replicate (L + 1) 0 ++
    threadMap (stopF L K bars) 0 (List.range' (L + 1) (bars.length - (L + 1)))

/-- The directional signal returned by `compute_utbot_signal`. -/
inductive Signal | buy | sell
deriving DecidableEq, Repr

/-- Lines 118-176 of `app.py`: `compute_utbot_signal`, with the module
configuration `ATR_LEN` and `KEY_VALUE` passed as the parameters `L`
and `K`.  Returns `none` when fewer than `L + 2` bars are supplied,
otherwise compares the last two closes against the trailing stop. -/
def compute_utbot_signal (L : ℕ) (K : ℚ) (bars : List Bar) : Option Signal :=
  if bars.length < L + 2 then none
  else
    let stop := stopList L K bars
    let i := bars.length - 1
    let i1 := bars.length - 2
    let aboveNow := (bars.getD i default).close > stop.getD i 0
    let abovePrev := (bars.getD i1 default).close > stop.getD i1 0
    if aboveNow ∧ ¬ abovePrev then some Signal.buy
    else if ¬ aboveNow ∧ abovePrev then some Signal.sell
    else none

/-- Default of the env var `ATR_LEN` (line 27). -/
def ATR_LEN : ℕ := 10

/-- Default of the env var `KEY_VALUE` (line 26). -/
def KEY_VALUE : ℚ := 1

/-- The 15-bar fixture: closes rising 100, 101, ..., 114 with
`high = close + 0.5` and `low = close - 0.5`. -/
def fixtureBars : List Bar :=
  (List.range 15).map fun (k : ℕ) =>
    let c : ℚ := 100 + (k : ℚ)
    ⟨c + 1/2, c - 1/2, c⟩

/-- Outcome of the authentication HTTP call made by `get_token`
(lines 41-50): either a token is returned, or the response carries a
`p-ticket` (MFA pending) and `get_token` returns `None` without
caching anything. -/
inductive AuthOutcome
  | ok (tok : String)
  | mfa
deriving DecidableEq

/-- The module-level token cache `_token` / `_token_ts`
(lines 31-32). -/
structure TokenState where
  token : Option String
  tokenTs : ℚ
deriving DecidableEq

/-- Initial cache state: `_token = None`, `_token_ts = 0`. -/
def initTokenState : TokenState := ⟨none, 0⟩

/-- Result of one `get_token` call: the returned value, the cache state
afterwards, and how many authentication HTTP requests the call made. -/
structure TokenResult where
  res : Option String
  state : TokenState
  authCalls : ℕ
deriving DecidableEq

/-- Python truthiness of `_token` in `if _token and ...` (line 38):
a cached token counts only if it is not `None` and not empty. -/
def tokenTruthy : Option String → Bool
  | none => false
  | some t => t ≠ ""

/-- Default `TOKEN_TTL = 18 * 60` seconds (line 33). -/
def TOKEN_TTL : ℚ := 18 * 60

/-- Lines 35-54 of `app.py`: `get_token` at wall-clock time `now`, with
the outcome of the (fallible, external) authentication call supplied as
`auth`.  Returns the cached token without any HTTP call when the cache
is fresh (`now - _token_ts < TOKEN_TTL`); otherwise performs exactly
one authentication call, caching the token and the issuance time on
success and caching nothing on the MFA path. -/
def get_token (auth : AuthOutcome) (now : ℚ) (s : TokenState) : TokenResult :=
  if tokenTruthy s.token ∧ now - s.tokenTs < TOKEN_TTL then ⟨s.token, s, 0⟩
  else
    match auth with
    | .mfa => ⟨none, s, 1⟩
    | .ok t => ⟨some t, ⟨some t, now⟩, 1⟩

/-- The two order actions the loop can take, the values of the Python
strings `'buy'` and `'sell'` held in `signal` / `last_signal`. -/
inductive Act | buy | sell
deriving DecidableEq, Repr

/-- Outcome of one `place_order` call (lines 179-193): the call either
completes, returning `r.status_code == 200` as its success flag, or it
raises (transport failure, caught by the loop's `except`). -/
inductive CallResult
  | ok (success : Bool)
  | exn
deriving DecidableEq

/-- Outcomes of the external order calls during one loop iteration. -/
structure OrderEnv where
  placeRes : Act → CallResult
  liqCompletes : Bool

/-- Observable events of one loop iteration, in order: a completed
`liquidate()` request, the `time.sleep` pause, and a completed
`place_order` request.  A call that raises emits no event (whether the
brokerage saw the request is outside the model). -/
inductive Ev
  | liquidate
  | sleepEv (seconds : ℕ)
  | openOrder (side : Act)
deriving DecidableEq, Repr

/-- Lines 218-232 of `app.py`: the signal-handling part of one
`trading_loop` iteration, given the current `last_signal`, the computed
`signal`, and the outcomes of the external calls.  The surrounding
`try/except` catches any raised exception, so an exception stops the
branch early and leaves `last_signal` unchanged.  Returns the new
`last_signal` and the emitted events. -/
def loopBody (env : OrderEnv) (last : Option Act) (signal : Option Act) :
    Option Act × List Ev :=
  match signal with
  | some Act.buy =>
    if last = some Act.buy then (last, [])
    else if last = some Act.sell then
      if env.liqCompletes then
        match env.placeRes Act.buy with
        | .exn => (last, [Ev.liquidate, Ev.sleepEv 1])
        | .ok _ => (some Act.buy, [Ev.liquidate, Ev.sleepEv 1, Ev.openOrder Act.buy])
      else (last, [])
    else
      match env.placeRes Act.buy with
      | .exn => (last, [])
      | .ok _ => (some Act.buy, [Ev.openOrder Act.buy])
  | some Act.sell =>
    if last = some Act.sell then (last, [])
    else if last = some Act.buy then
      if env.liqCompletes then
        match env.placeRes Act.sell with
        | .exn => (last, [Ev.liquidate, Ev.sleepEv 1])
        | .ok _ => (some Act.sell, [Ev.liquidate, Ev.sleepEv 1, Ev.openOrder Act.sell])
      else (last, [])
    else
      match env.placeRes Act.sell with
      | .exn => (last, [])
      | .ok _ => (some Act.sell, [Ev.openOrder Act.sell])
  | none => (last, [])

/-- The true-range value aligned with bar `i` (element `i` of the
Python list `trs` after the prepend on line 134). -/
def trVal (bars : List Bar) (i : ℕ) : ℚ :=
  (trs bars).getD i 0

/-- Environment in which every external order call completes with HTTP
status 200. -/
def envAllOk : OrderEnv := ⟨fun _ => CallResult.ok true, true⟩

/-- Environment in which `place_order` completes but the brokerage
answers with a non-200 status, so `place_order` returns `False`. -/
def envOrderFails : OrderEnv := ⟨fun _ => CallResult.ok false, true⟩

/-- Environment in which every `place_order` call raises (transport
failure), to be caught by the loop's `except` clause. -/
def envOrderExn : OrderEnv := ⟨fun _ => CallResult.exn, true⟩

/-- A constant-price series: 13 bars with `high = low = close = 5`. -/
def constBars : List Bar := List.replicate 13 ⟨5, 5, 5⟩

/-- A minimal-length series for a lookback of 1: three identical bars
with positive close. -/
def bars3 : List Bar := [⟨1, 1, 1⟩, ⟨1, 1, 1⟩, ⟨1, 1, 1⟩]

lemma threadMap_length {α : Type} (f : ℚ → α → ℚ) :
    ∀ (l : List α) (s : ℚ), (threadMap f s l).length = l.length
  | [], _ => rfl
  | _ :: xs, s => by
    simp only [threadMap, List.length_cons]
    rw [threadMap_length f xs]

lemma threadMap_getD {α : Type} (f : ℚ → α → ℚ) (d : ℚ) (x : α) :
    ∀ (l : List α) (s : ℚ) (j : ℕ), j < l.length →
      (threadMap f s l).getD j d =
        f (if j = 0 then s else (threadMap f s l).getD (j - 1) d) (l.getD j x)
  | [], _, j, h => by simp at h
  | y :: ys, s, 0, _ => by
    simp [threadMap, List.getD_cons_zero]
  | y :: ys, s, j + 1, h => by
    have hj : j < ys.length := by simpa using Nat.lt_of_succ_lt_succ h
    have ih := threadMap_getD f d x ys (f s y) j hj
    simp only [threadMap, List.getD_cons_succ, Nat.add_sub_cancel]
    rw [ih]
    cases j with
    | zero => simp [List.getD_cons_zero]
    | succ k => simp [List.getD_cons_succ]

lemma length_trsRaw (bars : List Bar) : (trsRaw bars).length = bars.length - 1 := by
  simp [trsRaw]

lemma length_trs (bars : List Bar) (h : 2 ≤ bars.length) :
    (trs bars).length = bars.length := by
  unfold trs
  cases htr : trsRaw bars with
  | nil =>
    have := length_trsRaw bars
    rw [htr] at this
    simp at this
    omega
  | cons t rest =>
    have := length_trsRaw bars
    rw [htr] at this
    simp at this ⊢
    omega

lemma trsRaw_getD (bars : List Bar) (k : ℕ) (h : k < bars.length - 1) :
    (trsRaw bars).getD k 0 = trOf (bars.getD (k + 1) default) (bars.getD k default) := by
  rw [trsRaw, List.getD_eq_getElem?_getD, List.getElem?_map, List.getElem?_range h]
  simp

lemma trVal_of_pos (bars : List Bar) (i : ℕ) (h1 : 1 ≤ i) (h2 : i < bars.length) :
    trVal bars i = trOf (bars.getD i default) (bars.getD (i - 1) default) := by
  obtain ⟨k, rfl⟩ : ∃ k, i = k + 1 := ⟨i - 1, by omega⟩
  unfold trVal trs
  cases htr : trsRaw bars with
  | nil =>
    exfalso
    have := length_trsRaw bars
    rw [htr] at this
    simp at this
    omega
  | cons t rest =>
    have : (t :: rest).getD k 0 = trOf (bars.getD (k + 1) default) (bars.getD k default) := by
      rw [← htr]
      exact trsRaw_getD bars k (by omega)
    simpa [List.getD_cons_succ] using this

lemma trVal_zero (bars : List Bar) : trVal bars 0 = trVal bars 1 := by
  unfold trVal trs
  cases htr : trsRaw bars with
  | nil => rfl
  | cons t rest => simp [List.getD_cons_zero, List.getD_cons_succ]

lemma getD_mem (l : List Bar) (i : ℕ) (h : i < l.length) : l.getD i default ∈ l := by
  rw [List.getD_eq_getElem?_getD, List.getElem?_eq_getElem h]
  exact List.getElem_mem h

lemma slice_eq_map_getD (l : List ℚ) (m n : ℕ) (h : m + n ≤ l.length) :
    (l.drop m).take n = (List.range n).map fun k => l.getD (m + k) 0 := by
  apply List.ext_getElem?
  intro i
  by_cases hi : i < n
  · rw [List.getElem?_map, List.getElem?_range hi]
    have hml : m + i < l.length := by omega
    simp [List.getElem?_take, hi, List.getElem?_drop, List.getD_eq_getElem?_getD,
      List.getElem?_eq_getElem hml]
  · have h1 : ((l.drop m).take n).length ≤ i := by
      simp [List.length_take, List.length_drop]
      omega
    have h2 : ((List.range n).map fun k => l.getD (m + k) 0).length ≤ i := by
      simp
      omega
    rw [List.getElem?_eq_none h1, List.getElem?_eq_none h2]

lemma atrList_getD_seed (L : ℕ) (bars : List Bar) :
    (atrList L bars).getD L none = some (atrSeed L bars) := by
  unfold atrList
  rw [List.getD_eq_getElem?_getD, List.getElem?_append_right (by simp)]
  simp

lemma atrVal_seed (L : ℕ) (bars : List Bar) : atrVal L bars L = atrSeed L bars := by
  unfold atrVal
  rw [atrList_getD_seed]
  rfl

lemma atrTail_length (L : ℕ) (bars : List Bar) (h : L + 2 ≤ bars.length) :
    (atrTail L bars).length = bars.length - (L + 1) := by
  have hl := length_trs bars (by omega)
  simp [atrTail, threadMap_length, hl]

lemma atrList_getD_tail (L : ℕ) (bars : List Bar) (j : ℕ)
    (h : L + 2 ≤ bars.length) (hj : j < bars.length - (L + 1)) :
    (atrList L bars).getD (L + 1 + j) none = some ((atrTail L bars).getD j 0) := by
  unfold atrList
  rw [List.getD_eq_getElem?_getD,
    List.getElem?_append_right (by simp [List.length_replicate]; omega)]
  have hrep : L + 1 + j - (List.replicate L (none : Option ℚ)).length = j + 1 := by
    simp only [List.length_replicate]
    omega
  rw [hrep]
  have hjlen : j < (atrTail L bars).length := by
    rw [atrTail_length L bars h]
    omega
  simp [List.getElem?_map, List.getElem?_eq_getElem hjlen,
    List.getD_eq_getElem?_getD]

lemma atrVal_step (L : ℕ) (bars : List Bar) (i : ℕ)
    (hL : L + 1 ≤ i) (hi : i < bars.length) :
    (atrList L bars).getD i none =
      some (wilderStep (1 / (L : ℚ)) (atrVal L bars (i - 1)) (trVal bars i)) := by
  have h2 : L + 2 ≤ bars.length := by omega
  have htrs := length_trs bars (by omega)
  obtain ⟨j, rfl⟩ : ∃ j, i = L + 1 + j := ⟨i - (L + 1), by omega⟩
  have hj : j < bars.length - (L + 1) := by omega
  rw [atrList_getD_tail L bars j h2 hj]
  have hseg : j < (((trs bars).drop (L + 1)).take (bars.length - (L + 1))).length := by
    simp [List.length_take, List.length_drop, htrs]
    omega
  have hstep := threadMap_getD (fun atr tr => wilderStep (1 / (L : ℚ)) atr tr) 0 0
    (((trs bars).drop (L + 1)).take (bars.length - (L + 1))) (atrSeed L bars) j hseg
  have hsegval : (((trs bars).drop (L + 1)).take (bars.length - (L + 1))).getD j 0 =
      trVal bars (L + 1 + j) := by
    unfold trVal
    rw [List.getD_eq_getElem?_getD, List.getD_eq_getElem?_getD]
    have hml : L + 1 + j < (trs bars).length := by omega
    simp [List.getElem?_take, hj, List.getElem?_drop]
  unfold atrTail
  rw [hstep, hsegval]
  congr 1
  cases j with
  | zero =>
    rw [Nat.add_zero, Nat.add_sub_cancel, atrVal_seed]
    simp
  | succ k =>
    have hik : L + 1 + (k + 1) - 1 = L + 1 + k := by omega
    rw [hik]
    have hk : k < bars.length - (L + 1) := by omega
    unfold atrVal
    rw [atrList_getD_tail L bars k h2 hk]
    simp [atrTail]

lemma stopList_getD_le (L : ℕ) (K : ℚ) (bars : List Bar) (i : ℕ) (h : i ≤ L) :
    (stopList L K bars).getD i 0 = 0 := by
  unfold stopList
  rw [List.getD_eq_getElem?_getD, List.getElem?_append]
  simp [List.getElem?_replicate, Nat.lt_succ_of_le h]

lemma stopList_getD_tail (L : ℕ) (K : ℚ) (bars : List Bar) (j : ℕ)
    (hj : j < bars.length - (L + 1)) :
    (stopList L K bars).getD (L + 1 + j) 0 =
      (threadMap (stopF L K bars) 0 (List.range' (L + 1) (bars.length - (L + 1)))).getD j 0 := by
  unfold stopList
  rw [List.getD_eq_getElem?_getD,
    List.getElem?_append_right (by simp [List.length_replicate])]
  have hrep : L + 1 + j - (List.replicate (L + 1) (0 : ℚ)).length = j := by
    simp [List.length_replicate]
  rw [hrep, ← List.getD_eq_getElem?_getD]

lemma stopList_getD_step (L : ℕ) (K : ℚ) (bars : List Bar) (i : ℕ)
    (hL : L + 1 ≤ i) (hi : i < bars.length) :
    (stopList L K bars).getD i 0 =
      stopF L K bars ((stopList L K bars).getD (i - 1) 0) i := by
  obtain ⟨j, rfl⟩ : ∃ j, i = L + 1 + j := ⟨i - (L + 1), by omega⟩
  have hj : j < bars.length - (L + 1) := by omega
  rw [stopList_getD_tail L K bars j hj]
  have hlen : j < (List.range' (L + 1) (bars.length - (L + 1))).length := by
    simp [List.length_range']
    omega
  have hstep := threadMap_getD (stopF L K bars) 0 0
    (List.range' (L + 1) (bars.length - (L + 1))) 0 j hlen
  rw [hstep]
  have hidx : (List.range' (L + 1) (bars.length - (L + 1))).getD j 0 = L + 1 + j := by
    rw [List.getD_eq_getElem?_getD]
    simp [List.getElem?_range', hj]
  rw [hidx]
  congr 1
  cases j with
  | zero =>
    rw [Nat.add_zero, Nat.add_sub_cancel, stopList_getD_le L K bars L (le_refl L)]
    simp
  | succ k =>
    have hik : L + 1 + (k + 1) - 1 = L + 1 + k := by omega
    rw [hik]
    have hk : k < bars.length - (L + 1) := by omega
    rw [stopList_getD_tail L K bars k hk]
    simp

lemma compute_signal_cases (L : ℕ) (K : ℚ) (bars : List Bar)
    (h : L + 2 ≤ bars.length) :
    compute_utbot_signal L K bars =
      if (bars.getD (bars.length - 1) default).close >
            (stopList L K bars).getD (bars.length - 1) 0 ∧
          ¬ (bars.getD (bars.length - 2) default).close >
            (stopList L K bars).getD (bars.length - 2) 0
      then some Signal.buy
      else if ¬ (bars.getD (bars.length - 1) default).close >
            (stopList L K bars).getD (bars.length - 1) 0 ∧
          (bars.getD (bars.length - 2) default).close >
            (stopList L K bars).getD (bars.length - 2) 0
      then some Signal.sell
      else none := by
  unfold compute_utbot_signal
  rw [if_neg (by omega)]

lemma fixtureBars_length : fixtureBars.length = 15 := by
  simp [fixtureBars]

lemma fixtureBars_getD (i : ℕ) (h : i < 15) :
    fixtureBars.getD i default =
      ⟨(100 + i : ℚ) + 1/2, (100 + i : ℚ) - 1/2, (100 + i : ℚ)⟩ := by
  unfold fixtureBars
  rw [List.getD_eq_getElem?_getD, List.getElem?_map, List.getElem?_range h]
  rfl

lemma fixtureTake_length (n : ℕ) (hn : n ≤ 15) :
    (fixtureBars.take n).length = n := by
  simp [List.length_take, fixtureBars_length]
  omega

lemma fixtureTake_getD (n i : ℕ) (hi : i < n) :
    (fixtureBars.take n).getD i default = fixtureBars.getD i default := by
  rw [List.getD_eq_getElem?_getD, List.getD_eq_getElem?_getD]
  simp [List.getElem?_take, hi]

lemma fixtureTake_trVal (n i : ℕ) (hn : n ≤ 15) (h1 : 1 ≤ i) (hi : i < n) :
    trVal (fixtureBars.take n) i = 3/2 := by
  rw [trVal_of_pos _ i h1 (by rw [fixtureTake_length n hn]; omega)]
  rw [fixtureTake_getD n i hi, fixtureTake_getD n (i - 1) (by omega)]
  rw [fixtureBars_getD i (by omega), fixtureBars_getD (i - 1) (by omega)]
  unfold trOf
  dsimp only
  have hcast : ((i - 1 : ℕ) : ℚ) = (i : ℚ) - 1 := by
    push_cast [h1]
    ring
  rw [hcast]
  have e1 : (100 : ℚ) + ↑i + 1/2 - (100 + (↑i - 1)) = 3/2 := by ring
  have e2 : (100 : ℚ) + ↑i - 1/2 - (100 + (↑i - 1)) = 1/2 := by ring
  have e3 : (100 : ℚ) + ↑i + 1/2 - (100 + ↑i - 1/2) = 1 := by ring
  rw [e1, e2, e3]
  rw [abs_of_nonneg (by norm_num), abs_of_nonneg (by norm_num)]
  rw [show max ((3:ℚ)/2) (1/2) = 3/2 from max_eq_left (by norm_num)]
  rw [max_eq_right (by norm_num)]

lemma fixtureTake_seed (n : ℕ) (hn12 : 12 ≤ n) (hn : n ≤ 15) :
    atrSeed 10 (fixtureBars.take n) = 3/2 := by
  have hlen := fixtureTake_length n hn
  have htrs := length_trs (fixtureBars.take n) (by omega)
  unfold atrSeed
  rw [slice_eq_map_getD _ 1 10 (by omega)]
  rw [List.map_congr_left (g := fun _ => (3:ℚ)/2) ?_]
  · simp [List.map_const', List.sum_replicate]
    norm_num
  · intro k hk
    have hk10 := List.mem_range.mp hk
    have := fixtureTake_trVal n (1 + k) hn (by omega) (by omega)
    unfold trVal at this
    rw [this]

lemma fixtureTake_atr (n : ℕ) (hn12 : 12 ≤ n) (hn : n ≤ 15) :
    ∀ i, 10 ≤ i → i < n → atrVal 10 (fixtureBars.take n) i = 3/2 := by
  have hlen := fixtureTake_length n hn
  intro i h10
  induction i, h10 using Nat.le_induction with
  | base =>
    intro _
    rw [atrVal_seed, fixtureTake_seed n hn12 hn]
  | succ m hm ih =>
    intro hi
    have ihv := ih (by omega)
    unfold atrVal
    rw [atrVal_step 10 _ (m + 1) (by omega) (by omega)]
    rw [Option.getD_some, Nat.add_sub_cancel, ihv]
    rw [show trVal (fixtureBars.take n) (m + 1) = 3/2 from
      fixtureTake_trVal n (m + 1) hn (by omega) (by omega)]
    unfold wilderStep
    norm_num

lemma fixtureTake_stop (n : ℕ) (hn12 : 12 ≤ n) (hn : n ≤ 15) :
    ∀ i, 11 ≤ i → i < n →
      (stopList 10 1 (fixtureBars.take n)).getD i 0 = (100 + i : ℚ) - 3/2 := by
  have hlen := fixtureTake_length n hn
  intro i h11
  induction i, h11 using Nat.le_induction with
  | base =>
    intro hi
    rw [stopList_getD_step 10 1 _ 11 (by omega) (by omega)]
    unfold stopF
    rw [show (11 : ℕ) - 1 = 10 from rfl]
    rw [stopList_getD_le 10 1 _ 10 (le_refl 10)]
    rw [fixtureTake_getD n 11 (by omega), fixtureTake_getD n 10 (by omega)]
    rw [fixtureBars_getD 11 (by omega), fixtureBars_getD 10 (by omega)]
    rw [fixtureTake_atr n hn12 hn 11 (by omega) (by omega)]
    unfold stopStep
    dsimp only
    rw [if_pos ⟨by norm_num, by norm_num⟩]
    rw [max_eq_right (by norm_num)]
    norm_num
  | succ m hm ih =>
    intro hi
    have ihv := ih (by omega)
    rw [stopList_getD_step 10 1 _ (m + 1) (by omega) (by omega)]
    unfold stopF
    rw [Nat.add_sub_cancel, ihv]
    rw [fixtureTake_getD n (m + 1) (by omega), fixtureTake_getD n m (by omega)]
    rw [fixtureBars_getD (m + 1) (by omega), fixtureBars_getD m (by omega)]
    rw [fixtureTake_atr n hn12 hn (m + 1) (by omega) (by omega)]
    unfold stopStep
    dsimp only
    have hc : ((m + 1 : ℕ) : ℚ) = (m : ℚ) + 1 := by push_cast; ring
    rw [hc]
    rw [if_pos ⟨by linarith, by linarith⟩]
    rw [show (100 : ℚ) + (↑m + 1) - 1 * (3/2) = 100 + (↑m + 1) - 3/2 from by ring]
    rw [max_eq_right (by linarith)]

lemma fixture_signal_none_all (n : ℕ) (hn : n ≤ 15) :
    compute_utbot_signal 10 1 (fixtureBars.take n) = none := by
  have hlen := fixtureTake_length n hn
  by_cases h12 : 12 ≤ n
  · rw [compute_signal_cases 10 1 _ (by omega)]
    rw [hlen]
    have haboveNow : (stopList 10 1 (fixtureBars.take n)).getD (n - 1) 0 <
        ((fixtureBars.take n).getD (n - 1) default).close := by
      rw [fixtureTake_stop n h12 hn (n - 1) (by omega) (by omega)]
      rw [fixtureTake_getD n (n - 1) (by omega), fixtureBars_getD (n - 1) (by omega)]
      dsimp only
      linarith
    have habovePrev : (stopList 10 1 (fixtureBars.take n)).getD (n - 2) 0 <
        ((fixtureBars.take n).getD (n - 2) default).close := by
      rw [fixtureTake_getD n (n - 2) (by omega), fixtureBars_getD (n - 2) (by omega)]
      dsimp only
      by_cases hc : 13 ≤ n
      · rw [fixtureTake_stop n h12 hn (n - 2) (by omega) (by omega)]
        linarith
      · have hn12 : n = 12 := by omega
        subst hn12
        rw [show (12 : ℕ) - 2 = 10 from rfl]
        rw [stopList_getD_le 10 1 _ 10 (le_refl 10)]
        positivity
    rw [if_neg (fun hcon => hcon.2 habovePrev)]
    rw [if_neg (fun hcon => hcon.1 haboveNow)]
  · unfold compute_utbot_signal
    rw [if_pos (by omega)]

/-- C1: for every bar sequence with at least `L + 2` bars (`L` the
lookback), the stop line satisfies, at each index `L+1 ≤ i < N`, the
four-branch recurrence with `nLoss_i = K * atr_i`, `src_i = close_i`
and `prevStop = stop_{i-1}`; the entry at index `L` — the `prevStop`
used by the first defined stop at index `L+1` — is `0`. -/
theorem trailing_stop_recurrence (L : ℕ) (K : ℚ) (bars : List Bar)
    (hlen : L + 2 ≤ bars.length) :
    (stopList L K bars).getD L 0 = 0 ∧
    ∀ i, L + 1 ≤ i → i < bars.length →
      (stopList L K bars).getD i 0 =
        (let src := (bars.getD i default).close
         let srcPrev := (bars.getD (i - 1) default).close
         let nLoss := K * atrVal L bars i
         let prevStop := (stopList L K bars).getD (i - 1) 0
         if src > prevStop ∧ srcPrev > prevStop then max prevStop (src - nLoss)
         else if src < prevStop ∧ srcPrev < prevStop then min prevStop (src + nLoss)
         else if src > prevStop then src - nLoss
         else src + nLoss) := by
  refine ⟨stopList_getD_le L K bars L (le_refl L), fun i h1 h2 => ?_⟩
  rw [stopList_getD_step L K bars i h1 h2]
  rfl

/-- Witness for `trailing_stop_recurrence` at the 15-bar fixture with
lookback 10. -/
theorem trailing_stop_recurrence_witness :
    (10 : ℕ) + 2 ≤ fixtureBars.length ∧ (stopList 10 1 fixtureBars).getD 10 0 = 0 :=
  ⟨by decide, (trailing_stop_recurrence 10 1 fixtureBars (by decide)).1⟩

/-- C2: with at least `L + 2` bars, the signal is decided from the last
two indices alone: Buy iff the last close is above its stop while the
previous close was not above its stop, Sell in the mirror case, and no
signal otherwise. -/
theorem signal_last_two_bars (L : ℕ) (K : ℚ) (bars : List Bar)
    (hlen : L + 2 ≤ bars.length) :
    compute_utbot_signal L K bars =
      if (bars.getD (bars.length - 1) default).close >
            (stopList L K bars).getD (bars.length - 1) 0 ∧
          ¬ (bars.getD (bars.length - 2) default).close >
            (stopList L K bars).getD (bars.length - 2) 0
      then some Signal.buy
      else if ¬ (bars.getD (bars.length - 1) default).close >
            (stopList L K bars).getD (bars.length - 1) 0 ∧
          (bars.getD (bars.length - 2) default).close >
            (stopList L K bars).getD (bars.length - 2) 0
      then some Signal.sell
      else none :=
  compute_signal_cases L K bars hlen

/-- Witness for `signal_last_two_bars` at the 15-bar fixture. -/
theorem signal_last_two_bars_witness :
    compute_utbot_signal 10 1 fixtureBars =
      if (fixtureBars.getD (fixtureBars.length - 1) default).close >
            (stopList 10 1 fixtureBars).getD (fixtureBars.length - 1) 0 ∧
          ¬ (fixtureBars.getD (fixtureBars.length - 2) default).close >
            (stopList 10 1 fixtureBars).getD (fixtureBars.length - 2) 0
      then some Signal.buy
      else if ¬ (fixtureBars.getD (fixtureBars.length - 1) default).close >
            (stopList 10 1 fixtureBars).getD (fixtureBars.length - 1) 0 ∧
          (fixtureBars.getD (fixtureBars.length - 2) default).close >
            (stopList 10 1 fixtureBars).getD (fixtureBars.length - 2) 0
      then some Signal.sell
      else none :=
  signal_last_two_bars 10 1 fixtureBars (by decide)

/-- C5: a bar sequence shorter than `lookback + 2` always yields no
signal; the guard returns before any indexing happens. -/
theorem short_series_no_signal (L : ℕ) (K : ℚ) (bars : List Bar)
    (h : bars.length < L + 2) :
    compute_utbot_signal L K bars = none := by
  unfold compute_utbot_signal
  rw [if_pos h]

/-- Witness for `short_series_no_signal` on a 5-bar series with
lookback 10. -/
theorem short_series_no_signal_witness :
    compute_utbot_signal 10 1 (fixtureBars.take 5) = none :=
  short_series_no_signal 10 1 (fixtureBars.take 5) (by decide)

/-- C4: characterization of the volatility series: the true range at
each index `i ≥ 1` is `max(high_i - low_i, |high_i - close_{i-1}|,
|low_i - close_{i-1}|)`; index 0 duplicates index 1; the ATR at index
`L` is the arithmetic mean of the true ranges at indices `1..L` (index
0 does not enter the seed); and the ATR at each index `i > L` obeys
Wilder smoothing with `alpha = 1/L`. -/
theorem atr_series_spec (L : ℕ) (bars : List Bar)
    (hL : 1 ≤ L) (hlen : L + 2 ≤ bars.length) :
    (∀ i, 1 ≤ i → i < bars.length →
      trVal bars i =
        max ((bars.getD i default).high - (bars.getD i default).low)
          (max |(bars.getD i default).high - (bars.getD (i - 1) default).close|
            |(bars.getD i default).low - (bars.getD (i - 1) default).close|)) ∧
    trVal bars 0 = trVal bars 1 ∧
    (atrList L bars).getD L none =
      some (((List.range L).map fun k => trVal bars (k + 1)).sum / (L : ℚ)) ∧
    ∀ i, L + 1 ≤ i → i < bars.length →
      (atrList L bars).getD i none =
        some ((1 / (L : ℚ)) * trVal bars i +
          (1 - 1 / (L : ℚ)) * atrVal L bars (i - 1)) := by
  have htrs := length_trs bars (by omega)
  refine ⟨fun i h1 h2 => ?_, trVal_zero bars, ?_, fun i h1 h2 => ?_⟩
  · rw [trVal_of_pos bars i h1 h2]
    rfl
  · rw [atrList_getD_seed]
    unfold atrSeed
    rw [slice_eq_map_getD _ 1 L (by omega)]
    have hfun : (fun k => (trs bars).getD (1 + k) 0) =
        fun k => trVal bars (k + 1) := by
      funext k
      rw [Nat.add_comm]
      rfl
    rw [hfun]
  · rw [atrVal_step L bars i h1 h2]
    rfl

/-- Witness for `atr_series_spec` at the fixture with lookback 10. -/
theorem atr_series_spec_witness :
    trVal fixtureBars 0 = trVal fixtureBars 1 :=
  (atr_series_spec 10 fixtureBars (by decide) (by decide)).2.1

/-- C9: on a constant-price series (every bar has
`high = low = close = c`), every defined ATR value — the seed at index
`L` and all smoothed values after it — is exactly zero. -/
theorem atr_constant_series_zero (L : ℕ) (bars : List Bar) (c : ℚ)
    (hL : 1 ≤ L) (hlen : L + 2 ≤ bars.length)
    (hconst : ∀ b ∈ bars, b.high = c ∧ b.low = c ∧ b.close = c) :
    ∀ i, L ≤ i → i < bars.length → (atrList L bars).getD i none = some 0 := by
  have htrs := length_trs bars (by omega)
  have htr : ∀ i, 1 ≤ i → i < bars.length → trVal bars i = 0 := by
    intro i h1 h2
    rw [trVal_of_pos bars i h1 h2]
    obtain ⟨hh, hl, _⟩ := hconst _ (getD_mem bars i h2)
    obtain ⟨_, _, hpc⟩ := hconst _ (getD_mem bars (i - 1) (by omega))
    unfold trOf
    rw [hh, hl, hpc]
    simp
  have hseed : atrSeed L bars = 0 := by
    unfold atrSeed
    rw [slice_eq_map_getD _ 1 L (by omega)]
    have hz : ((List.range L).map fun k => (trs bars).getD (1 + k) 0).sum = 0 := by
      apply List.sum_eq_zero
      intro x hx
      obtain ⟨k, hk, rfl⟩ := List.mem_map.mp hx
      have hkL := List.mem_range.mp hk
      have := htr (1 + k) (by omega) (by omega)
      unfold trVal at this
      exact this
    rw [hz]
    simp
  intro i hLi
  induction i, hLi using Nat.le_induction with
  | base =>
    intro _
    rw [atrList_getD_seed, hseed]
  | succ m hm ih =>
    intro hi
    have ihv : atrVal L bars m = 0 := by
      unfold atrVal
      rw [ih (by omega)]
      rfl
    rw [atrVal_step L bars (m + 1) (by omega) hi]
    rw [Nat.add_sub_cancel, ihv]
    rw [htr (m + 1) (by omega) hi]
    unfold wilderStep
    norm_num

/-- Witness for `atr_constant_series_zero` on 13 constant bars. -/
theorem atr_constant_series_zero_witness :
    (atrList 10 constBars).getD 12 none = some 0 :=
  atr_constant_series_zero 10 constBars 5 (by decide) (by decide)
    (by decide) 12 (by decide) (by decide)

/-- C10: at the minimum admissible length `L + 2` with all closes
positive, the previous bar is compared against the `0.0` placeholder
stop at index `L`, so it always reads as above the stop and a Buy
signal is impossible. -/
theorem min_length_no_buy (L : ℕ) (K : ℚ) (bars : List Bar)
    (hlen : bars.length = L + 2)
    (hpos : ∀ b ∈ bars, 0 < b.close) :
    compute_utbot_signal L K bars ≠ some Signal.buy := by
  rw [compute_signal_cases L K bars (by omega)]
  have hstop : (stopList L K bars).getD (bars.length - 2) 0 = 0 := by
    rw [show bars.length - 2 = L from by omega]
    exact stopList_getD_le L K bars L (le_refl L)
  have habovePrev : (stopList L K bars).getD (bars.length - 2) 0 <
      (bars.getD (bars.length - 2) default).close := by
    rw [hstop]
    exact hpos _ (getD_mem bars (bars.length - 2) (by omega))
  rw [if_neg (fun hcon => hcon.2 habovePrev)]
  split
  · simp
  · simp

/-- Witness for `min_length_no_buy` on three constant positive bars
with lookback 1. -/
theorem min_length_no_buy_witness :
    compute_utbot_signal 1 1 bars3 ≠ some Signal.buy :=
  min_length_no_buy 1 1 bars3 (by decide) (by decide)

/-- C7 counterexample: on the 15-bar rising fixture with lookback 10
and key value 1, the detector emits no Buy signal at all — the full
series and every computable prefix evaluate to no signal, refuting
"exactly one Buy signal". -/
theorem fixture_one_buy_refuted :
    compute_utbot_signal 10 1 fixtureBars = none ∧
    compute_utbot_signal 10 1 (fixtureBars.take 12) = none ∧
    compute_utbot_signal 10 1 (fixtureBars.take 13) = none ∧
    compute_utbot_signal 10 1 (fixtureBars.take 14) = none := by
  have h15 := fixture_signal_none_all 15 (le_refl 15)
  rw [show fixtureBars.take 15 = fixtureBars from by
    rw [← fixtureBars_length]
    exact List.take_length fixtureBars] at h15
  exact ⟨h15, fixture_signal_none_all 12 (by omega),
    fixture_signal_none_all 13 (by omega), fixture_signal_none_all 14 (by omega)⟩

/-- C7 amended: on the fixture the detector emits no signal at any
prefix length: the close is above the stop from the first defined stop
index on, and at the first computable index the previous bar is read
against the `0.0` placeholder stop, so no upward crossing ever fires. -/
theorem fixture_no_signal_any_prefix (n : ℕ) (hn : n ≤ 15) :
    compute_utbot_signal 10 1 (fixtureBars.take n) = none :=
  fixture_signal_none_all n hn

/-- Witness for `fixture_no_signal_any_prefix` at prefix length 13. -/
theorem fixture_no_signal_any_prefix_witness :
    compute_utbot_signal 10 1 (fixtureBars.take 13) = none :=
  fixture_no_signal_any_prefix 13 (by decide)

/-- C6: one coordinator step with all order calls succeeding: from Flat
(`last_signal = None`) a Buy signal dispatches exactly one open order,
no liquidation, and ends Long (`last_signal = 'buy'`); from Long a Sell
signal dispatches exactly one liquidation, then the fixed one-second
pause, then exactly one sell open order, ending Short. -/
theorem coordinator_transitions (env : OrderEnv)
    (hliq : env.liqCompletes = true)
    (hplace : ∀ a, env.placeRes a = CallResult.ok true) :
    loopBody env none (some Act.buy) = (some Act.buy, [Ev.openOrder Act.buy]) ∧
    loopBody env (some Act.buy) (some Act.sell) =
      (some Act.sell, [Ev.liquidate, Ev.sleepEv 1, Ev.openOrder Act.sell]) := by
  constructor
  · unfold loopBody
    simp [hplace]
  · unfold loopBody
    simp [hliq, hplace]

/-- Witness for `coordinator_transitions` in the all-success
environment. -/
theorem coordinator_transitions_witness :
    loopBody envAllOk none (some Act.buy) = (some Act.buy, [Ev.openOrder Act.buy]) :=
  (coordinator_transitions envAllOk rfl (fun _ => rfl)).1

/-- C3 counterexample: `place_order` completes with a non-200 response
(it returns `False`), yet the loop still records the transition: from
Flat a Buy signal sets `last_signal = 'buy'` although the order failed,
because the return value of `place_order` is never inspected. -/
theorem failed_order_recorded_as_transition :
    envOrderFails.placeRes Act.buy = CallResult.ok false ∧
    loopBody envOrderFails none (some Act.buy) = (some Act.buy, [Ev.openOrder Act.buy]) :=
  ⟨rfl, by decide⟩

/-- C3 amended: only an open-order call that raises an exception leaves
the position state unchanged; an open-order call that completes — even
with a failure response — is recorded as a completed transition. -/
theorem open_order_failure_handling (env : OrderEnv) (last : Option Act)
    (signal : Option Act) :
    ((∀ a, env.placeRes a = CallResult.exn) → (loopBody env last signal).1 = last) ∧
    (∀ a b, env.placeRes a = CallResult.ok b → env.liqCompletes = true →
      signal = some a → last ≠ some a →
      (loopBody env last signal).1 = some a) := by
  constructor
  · intro hexn
    cases signal with
    | none => rfl
    | some a =>
      rcases last with _ | b
      · cases a <;> simp [loopBody, hexn]
      · cases a <;> cases b <;> cases hlc : env.liqCompletes <;>
          simp [loopBody, hexn, hlc]
  · intro a b hb hliq hsig hlast
    subst hsig
    cases a with
    | buy =>
      rcases last with _ | c
      · simp [loopBody, hb]
      · cases c
        · exact absurd rfl hlast
        · simp [loopBody, hb, hliq]
    | sell =>
      rcases last with _ | c
      · simp [loopBody, hb]
      · cases c
        · simp [loopBody, hb, hliq]
        · exact absurd rfl hlast

/-- Witness for `open_order_failure_handling`: an order exception keeps
the state Flat; a completed-but-unsuccessful order still flips it, on
the buy side (Flat to Long) and on the sell side (Long to Short). -/
theorem open_order_failure_handling_witness :
    (loopBody envOrderExn none (some Act.buy)).1 = none ∧
    (loopBody envOrderFails none (some Act.buy)).1 = some Act.buy ∧
    (loopBody envOrderFails (some Act.buy) (some Act.sell)).1 = some Act.sell :=
  ⟨(open_order_failure_handling envOrderExn none (some Act.buy)).1 (fun _ => rfl),
   (open_order_failure_handling envOrderFails none (some Act.buy)).2 Act.buy false
     rfl rfl rfl (by decide),
   (open_order_failure_handling envOrderFails (some Act.buy) (some Act.sell)).2 Act.sell
     false rfl rfl rfl (by decide)⟩

/-- C8: a freshly issued credential is cached with its issuance time;
any request strictly inside the TTL window returns the cached value
with no authentication call (so the issuing request plus a second
request inside the window make exactly one call in total); a request at
or after expiry makes exactly one new call; and a cached read does not
extend the window — expiry is measured from issuance. -/
theorem token_ttl_caching (tok : String) (htok : tok ≠ "") (t0 t1 t2 : ℚ)
    (s0 : TokenState) (hs0 : s0.token = none) :
    (get_token (AuthOutcome.ok tok) t0 s0).authCalls = 1 ∧
    (get_token (AuthOutcome.ok tok) t0 s0).state = ⟨some tok, t0⟩ ∧
    (∀ (a : AuthOutcome) (now : ℚ), now - t0 < TOKEN_TTL →
      get_token a now ⟨some tok, t0⟩ = ⟨some tok, ⟨some tok, t0⟩, 0⟩) ∧
    (∀ (a : AuthOutcome) (now : ℚ), TOKEN_TTL ≤ now - t0 →
      (get_token a now ⟨some tok, t0⟩).authCalls = 1) ∧
    (∀ (a1 a2 : AuthOutcome), t1 - t0 < TOKEN_TTL → TOKEN_TTL ≤ t2 - t0 →
      (get_token a2 t2 (get_token a1 t1 ⟨some tok, t0⟩).state).authCalls = 1) := by
  have hmiss : get_token (AuthOutcome.ok tok) t0 s0 =
      ⟨some tok, ⟨some tok, t0⟩, 1⟩ := by
    unfold get_token
    rw [if_neg (by rw [hs0]; simp [tokenTruthy])]
  have hfresh : ∀ (a : AuthOutcome) (now : ℚ), now - t0 < TOKEN_TTL →
      get_token a now ⟨some tok, t0⟩ = ⟨some tok, ⟨some tok, t0⟩, 0⟩ := by
    intro a now hnow
    unfold get_token
    rw [if_pos ⟨by simp [tokenTruthy, htok], hnow⟩]
  have hexp : ∀ (a : AuthOutcome) (now : ℚ), TOKEN_TTL ≤ now - t0 →
      (get_token a now ⟨some tok, t0⟩).authCalls = 1 := by
    intro a now hnow
    unfold get_token
    rw [if_neg (fun hcon => absurd hcon.2 (not_lt.mpr hnow))]
    cases a <;> rfl
  refine ⟨by rw [hmiss], by rw [hmiss], hfresh, hexp, ?_⟩
  intro a1 a2 h1 h2
  rw [hfresh a1 t1 h1]
  exact hexp a2 t2 h2

/-- Witness for `token_ttl_caching` at concrete times. -/
theorem token_ttl_caching_witness :
    (get_token (AuthOutcome.ok "a") 0 initTokenState).authCalls = 1 :=
  (token_ttl_caching "a" (by decide) 0 100 2000 initTokenState rfl).1
